import Mathlib

/-!
Verification development for the pense optimization core
(src/src/IRWEN.cpp: `IRWEN::compute`, `ENDal`; src/unnamed/part_001:
`CDPense::Optimize`).

Shallow embedding conventions:
* machine doubles are modelled as exact rationals (`ℚ`) except where the
  source applies `sqrt` to runtime data (`ENDal::computeCoefsWeighted`),
  which is modelled over `ℝ` with `Real.sqrt`;
* Armadillo vectors are `List`s, matrices are `List (List _)` in row-major
  layout (`Xtr` keeps the source's predictors-by-observations layout);
* in-place mutation becomes explicit state passing;
* `throw std::logic_error` becomes `Except String`;
* inner routines whose outputs the claims quantify over universally
  (`ENDal::dal` as seen from `computeCoefs`/`computeCoefsWeighted`,
  `ENDal::minimizePhi` as seen from the outer `dal` loop, the coordinate
  cycle body of `CDPense::Optimize`, and the loss evaluator, which the
  design treats as an external collaborator) are oracle parameters.
-/

/-! ### Shared list/vector primitives -/

/-- Dot product of two rational vectors (`arma::dot`). -/
def dotQ (xs ys : List ℚ) : ℚ := (List.zipWith (· * ·) xs ys).sum

/-- Sum of the entries (`arma::accu`). -/
def sumQ (xs : List ℚ) : ℚ := xs.sum

/-- Sum of squared entries (`squaredL2Norm` in ENDal.cpp). -/
def squaredL2Norm (xs : List ℚ) : ℚ := (xs.map (fun x => x * x)).sum

/-- Arithmetic mean of the entries (`arma::mean`). -/
def lmeanQ (xs : List ℚ) : ℚ := xs.sum / (xs.length : ℚ)

/-- Elementwise (Schur) product `xs % ys`. -/
def hadamardQ (xs ys : List ℚ) : List ℚ := List.zipWith (· * ·) xs ys

/-- Matrix-vector product `M * v` for a row-major matrix. -/
def matVecQ (M : List (List ℚ)) (v : List ℚ) : List ℚ :=
  M.map (fun row => dotQ row v)

/-! ### Soft-threshold primitive (ENDal.cpp lines 768-783) -/

/-- Embedding of `softThreshold(z, gamma)`: returns `0` when `|z| <= gamma`,
`z + gamma` when `z < 0`, and `z - gamma` otherwise. -/
def softThreshold (z gamma : ℚ) : ℚ :=
  if |z| ≤ gamma then 0
  else if z < 0 then z + gamma
  else z - gamma

/-- Embedding of `vecSoftThreshold(z, gamma)`: applies `softThreshold`
to every element of the vector in place. -/
def vecSoftThreshold (z : List ℚ) (gamma : ℚ) : List ℚ :=
  z.map (fun e => softThreshold e gamma)

/-- The sign function `sign(z)` used by the spec's description of the
soft-threshold operator. -/
def sgnQ (z : ℚ) : ℚ :=
  if z < 0 then -1 else if z = 0 then 0 else 1

/-! ### ENDal::setLambdas (ENDal.cpp lines 231-238) -/

/-- Embedding of `ENDal::setLambdas(lambda1, lambda2)`; returns the pair
`(lambda, alpha)` the member fields are set to.  The guard zeroing `alpha`
when both inputs are zero mirrors lines 235-237 (in C++ `0/0` would be NaN;
over `ℚ` division by zero is `0`, so the guard is observationally redundant
here but kept for faithfulness). -/
def setLambdas (lambda1 lambda2 : ℚ) : ℚ × ℚ :=
  let lambda := lambda2 + lambda1
  let alpha := lambda1 / (lambda2 + lambda1)
  if lambda2 = 0 ∧ lambda1 = 0 then (lambda, 0) else (lambda, alpha)

/-! ### IRWEN::compute (IRWEN.cpp lines 41-102)

The weighted elastic-net solver invoked at line 66 (together with the
`updateWeights` hook at line 55, a pure virtual customization point) is an
oracle `solver : List ℚ × List ℚ → List ℚ × List ℚ` mapping the current
(coefficients, residuals) to the updated pair. -/

/-- Embedding of the relative-change computation of `IRWEN::compute`
(lines 75-93).  `numTol` is the constant `NUMERICAL_TOLERANCE`
(= `NUMERIC_EPS` from config.h) and `epsSq` the member `this->eps`, which
holds the square of the user-supplied convergence tolerance (line 24). -/
def irwenRelChange (numTol epsSq : ℚ) (oldCoef newCoef : List ℚ) : ℚ :=
  let relChangeVal := (List.zipWith (fun o n => (o - n) * (o - n)) oldCoef newCoef).sum
  let norm2Old := (oldCoef.map (fun o => o * o)).sum
  if norm2Old < numTol then
    if relChangeVal < numTol then 0 else 2 * epsSq
  else
    relChangeVal / norm2Old

/-- Embedding of the do-while loop of `IRWEN::compute` (lines 52-99),
fuelled.  Returns `(iteration, coefs, residuals, relChangeVal)` at exit.
The loop continues while `iteration < maxIt ∧ relChangeVal > epsSq`. -/
def irwenGo (solver : List ℚ × List ℚ → List ℚ × List ℚ)
    (numTol epsSq : ℚ) (maxIt : ℕ) :
    ℕ → ℕ → List ℚ → List ℚ → ℕ × List ℚ × List ℚ × ℚ
  | 0, iteration, coefs, resids => (iteration, coefs, resids, 0)
  | fuel + 1, iteration, coefs, resids =>
    let next := solver (coefs, resids)
    let rc := irwenRelChange numTol epsSq coefs next.1
    let iteration' := iteration + 1
    if iteration' < maxIt ∧ rc > epsSq then
      irwenGo solver numTol epsSq maxIt fuel iteration' next.1 next.2
    else
      (iteration', next.1, next.2, rc)

/-- Embedding of `IRWEN::compute`: runs the iteration loop from iteration
count `0`; the fuel `maxIt + 1` can never be exhausted before the
`iteration < maxIt` guard stops the loop. -/
def irwenCompute (solver : List ℚ × List ℚ → List ℚ × List ℚ)
    (numTol epsSq : ℚ) (maxIt : ℕ) (coefs resids : List ℚ) :
    ℕ × List ℚ × List ℚ × ℚ :=
  irwenGo solver numTol epsSq maxIt (maxIt + 1) 0 coefs resids

/-! ### ENDal::dal outer loop (ENDal.cpp lines 390-532)

The state mutated across outer iterations.  `dualFunVal` carries the
accepted dual objective value (the local `dualFunVal` after the
monotonicity guard of lines 482-484); `aL1Prev` is the local of the same
name.  `minimizePhi` (lines 535-655, an inner proximal-Newton loop that
rewrites `this->a`, `beta` and `intercept` and touches nothing else the
outer loop reads) is an oracle parameter `phi`. -/

structure DalState where
  a : List ℚ
  beta : List ℚ
  interceptVal : ℚ
  eta0 : ℚ
  eta1 : ℚ
  dualFunVal : ℚ
  aL1Prev : ℚ
  deriving Repr, DecidableEq

/-- The fixed data of one `dal` invocation: installed response `y` and
design `Xtr` (predictors-by-observations, intercept row already shed),
regularization `(alpha, lambda)`, the cached `sqrtWeights`, the
`useWeights` and `this->intercept` flags, and the options `etaMultiplier`
and `eps`. -/
structure DalParams where
  y : List ℚ
  Xtr : List (List ℚ)
  alpha : ℚ
  lambda : ℚ
  sqrtW : List ℚ
  useW : Bool
  hasIntercept : Bool
  etaMult : ℚ
  eps : ℚ

/-- `nobs * lambda` (line 393). -/
def DalParams.nLambda (P : DalParams) : ℚ := (P.y.length : ℚ) * P.lambda

/-- Embedding of `lossDual(a, y, true)` (lines 796-803, `aNeg` branch):
`0.5 * dot(a,a) - dot(a,y)`. -/
def lossDualNeg (a y : List ℚ) : ℚ := (1/2) * dotQ a a - dotQ a y

/-- Largest absolute entry, `max(abs(v))`, with `0` for the empty vector. -/
def maxAbsQ (xs : List ℚ) : ℚ := (xs.map (fun x => |x|)).foldr max 0

/-- Embedding of the dual-objective computation at the top of each outer
`dal` iteration (lines 462-480): center the dual vector when an intercept
is present (weighted mean if weighted), then either soft-threshold
`Xtr * dualVec` at `n*lambda*alpha` (case `alpha < 1`) or rescale the dual
vector into the feasible set (case `alpha = 1`).  In the rescaling branch,
C++ `fmin(nLambda / 0, 1)` evaluates to `1` (the quotient is `+inf`, or
NaN when `nLambda = 0`, which `fmin` ignores), hence the explicit guard. -/
def computedDualVal (P : DalParams) (a : List ℚ) : ℚ :=
  let la := P.nLambda * P.alpha
  let updateDenomMult := 1 / (P.nLambda * (1 - P.alpha))
  let dualVec :=
    if P.hasIntercept then
      if P.useW then
        let m := lmeanQ (hadamardQ P.sqrtW a)
        List.zipWith (fun ai wi => ai - wi * m) a P.sqrtW
      else
        let m := lmeanQ a
        a.map (fun ai => ai - m)
    else a
  let tmpInnerProd := matVecQ P.Xtr dualVec
  if P.alpha < 1 then
    lossDualNeg dualVec P.y +
      (1/2) * squaredL2Norm (vecSoftThreshold tmpInnerProd la) * updateDenomMult
  else
    let m := maxAbsQ tmpInnerProd
    let scale := if m = 0 then 1 else min (P.nLambda / m) 1
    lossDualNeg (dualVec.map (· * scale)) P.y

/-- The quantity `aL1` of line 518: `accu(sqrtWeights % a)` when weighted,
`accu(a)` otherwise (the signed dual mass). -/
def dualMass (P : DalParams) (a : List ℚ) : ℚ :=
  if P.useW then sumQ (hadamardQ P.sqrtW a) else sumQ a

/-- One full body of the outer `dal` while-loop (lines 457-526) in a pass
where neither the duality-gap break nor the iteration cap fires, at
0-based pass index `k` (so the source's `iter` equals `k` at the
monotonicity guard and `k + 1` at the `eta` update, after `++iter`):
1. compute the dual objective from the current `a` and clamp it to the
   previously accepted value when `iter > 0` (lines 461-484);
2. run one inner proximal-Newton step (`phi`, line 511);
3. grow `eta[0]` by `etaMultiplier` (line 514) and, when an intercept is
   modeled, grow `eta[1]` by `10 * etaMultiplier` when
   `iter > 1 ∧ aL1 > eps ∧ aL1 > 0.5 * aL1Prev` and by `etaMultiplier`
   otherwise, then record `aL1Prev` (lines 517-525). -/
def dalStep (P : DalParams) (phi : List ℚ × List ℚ × ℚ → List ℚ × List ℚ × ℚ)
    (k : ℕ) (s : DalState) : DalState :=
  let d := computedDualVal P s.a
  let accepted := if 0 < k ∧ s.dualFunVal < d then s.dualFunVal else d
  let upd := phi (s.a, s.beta, s.interceptVal)
  let aL1 := dualMass P upd.1
  let eta1' :=
    if P.hasIntercept then
      if 1 < k + 1 ∧ P.eps < aL1 ∧ (1/2) * s.aL1Prev < aL1 then
        s.eta1 * (10 * P.etaMult)
      else
        s.eta1 * P.etaMult
    else s.eta1
  { a := upd.1
    beta := upd.2.1
    interceptVal := upd.2.2
    eta0 := s.eta0 * P.etaMult
    eta1 := eta1'
    dualFunVal := accepted
    aL1Prev := if P.hasIntercept then aL1 else s.aL1Prev }

/-- The outer-iteration states of `dal`: `dalIterates P phi s0 k` is the
state after `k` non-converged passes of the loop starting from `s0`
(which models the state right after the warm-start block, where
`dualFunVal = 0`, line 453). -/
def dalIterates (P : DalParams) (phi : List ℚ × List ℚ × ℚ → List ℚ × List ℚ × ℚ)
    (s0 : DalState) : ℕ → DalState
  | 0 => s0
  | k + 1 => dalStep P phi k (dalIterates P phi s0 k)

/-! ### Hessian cache (ENDal.cpp lines 758-765) and evalPhiHess (677-702) -/

/-- The Hessian-cache fields of `ENDal`: `hessBuffKeep` (the index-set
key, a `uvec` of row indices) and `hessBuff` (the cached matrix). -/
structure HessCache where
  hessBuffKeep : List ℕ
  hessBuff : List (List ℚ)
  deriving Repr, DecidableEq

/-- `Xtr.rows(keep)`: select the rows of `Xtr` listed in `keep`. -/
def selRows (keep : List ℕ) (Xtr : List (List ℚ)) : List (List ℚ) :=
  keep.map (fun r => Xtr.getD r [])

/-- `A.t() * A` for a matrix `A` whose rows have length `nobs`: the
`nobs × nobs` Gram matrix of the columns of `A`. -/
def gramT (A : List (List ℚ)) (nobs : ℕ) : List (List ℚ) :=
  (List.range nobs).map (fun i =>
    (List.range nobs).map (fun j =>
      (A.map (fun row => row.getD i 0 * row.getD j 0)).sum))

/-- The matrix `Xtr.rows(keep).t() * Xtr.rows(keep)` that
`getHessBuff` is meant to return for the currently installed data. -/
def hessTarget (Xtr : List (List ℚ)) (nobs : ℕ) (keep : List ℕ) : List (List ℚ) :=
  gramT (selRows keep Xtr) nobs

/-- The staleness test of line 760,
`size(keep) != size(hessBuffKeep) || any(keep - hessBuffKeep)`:
the sizes differ, or some elementwise difference is non-zero (unsigned
subtraction of `uword`s is non-zero exactly when the entries differ, so it
is modelled by subtraction in `ℤ`). -/
def hessKeyDiffers (keep key : List ℕ) : Bool :=
  keep.length ≠ key.length ∨
    (List.zipWith (fun (a b : ℕ) => (a : ℤ) - (b : ℤ)) keep key).any (· ≠ 0)

/-- Embedding of `ENDal::getHessBuff(keep)` (lines 758-765): recompute the
buffer from the currently installed `Xtr` and store `keep` as the new key
when the staleness test fires, otherwise return the cached buffer
unchanged.  Returns the returned matrix together with the cache state
after the call. -/
def getHessBuff (Xtr : List (List ℚ)) (nobs : ℕ) (keep : List ℕ)
    (c : HessCache) : List (List ℚ) × HessCache :=
  if hessKeyDiffers keep c.hessBuffKeep then
    let h := hessTarget Xtr nobs keep
    (h, { hessBuffKeep := keep, hessBuff := h })
  else
    (c.hessBuff, c)

/-- `find(beta)`: the (sorted) indices of the non-zero entries of `beta`. -/
def findSupport (beta : List ℚ) : List ℕ :=
  (List.range beta.length).filter (fun i => beta.getD i 0 ≠ 0)

/-- Add `1` to every diagonal entry (`hess.diag() += 1`). -/
def addDiagOne (M : List (List ℚ)) : List (List ℚ) :=
  M.mapIdx (fun i row => row.mapIdx (fun j x => if i = j then x + 1 else x))

/-- Multiply every entry by a scalar. -/
def smulMat (c : ℚ) (M : List (List ℚ)) : List (List ℚ) :=
  M.map (fun row => row.map (fun x => c * x))

/-- Add a scalar to every entry (`hess += eta[1]`). -/
def addScalarMat (c : ℚ) (M : List (List ℚ)) : List (List ℚ) :=
  M.map (fun row => row.map (fun x => x + c))

/-- Elementwise sum of two matrices (`hess += eta[1] * sqrtWeightsOuter`). -/
def addMat (M N : List (List ℚ)) : List (List ℚ) :=
  List.zipWith (fun r s => List.zipWith (· + ·) r s) M N

/-- Embedding of `ENDal::evalPhiHess` (lines 677-702): restrict the
curvature to the support of `beta` (through the cache when `useHessBuffer`
is set, directly otherwise), scale by `eta[0] * multFact`, add the
identity, and add the intercept block (`eta[1]` everywhere without
weights, `eta[1] * sqrtWeightsOuter` with weights).  Returns the Hessian
and the cache state after the call. -/
def evalPhiHess (useHessBuffer : Bool) (Xtr : List (List ℚ)) (nobs : ℕ)
    (beta : List ℚ) (eta0 eta1 multFact : ℚ) (hasIntercept useW : Bool)
    (sqrtWeightsOuter : List (List ℚ)) (c : HessCache) :
    List (List ℚ) × HessCache :=
  let keep := findSupport beta
  let hc := if useHessBuffer then getHessBuff Xtr nobs keep c
            else (hessTarget Xtr nobs keep, c)
  let hess := addDiagOne (smulMat (eta0 * multFact) hc.1)
  let hess :=
    if hasIntercept then
      if useW then addMat hess (smulMat eta1 sqrtWeightsOuter)
      else addScalarMat eta1 hess
    else hess
  (hess, hc.2)

/-! ### CDPense::Optimize (src/unnamed/part_001, lines 159-341)

The claims about `CDPense` concern its error behaviour and its
iteration-cap exit.  The loss function is an external collaborator (it
owns the M-scale root-finder); it is modelled by the one operation the
embedded control flow consumes, `Residuals : coefficients → residuals`.
The body of one outer cycle (intercept line search plus the cyclic
coordinate updates, lines 219-318, which read and write the whole
iteration state through the loss evaluator) is an oracle
`cycleFn : CDState → CDState`. -/

/-- Coefficients: scalar intercept plus slope vector
(`Coefficients` in nsoptim). -/
structure CDCoefs where
  interceptC : ℚ
  beta : List ℚ
  deriving Repr, DecidableEq

/-- The iteration state `coorddesc::State` (part_001 lines 40-46). -/
structure CDState where
  coefs : CDCoefs
  residuals : List ℚ
  mscale : ℚ
  objf_loss : ℚ
  objf_pen : ℚ
  deriving Repr, DecidableEq

/-- The loss collaborator (`SLoss`), reduced to the operation the
embedded control flow of `Optimize` consumes. -/
structure SLossModel where
  Residuals : CDCoefs → List ℚ

/-- An elastic-net penalty configuration (`PenaltyFunction`); only its
presence matters for `Optimize`'s control flow. -/
structure PenaltyModel where
  lambda : ℚ
  alpha : ℚ

/-- Status of an optimum (`nsoptim::OptimumStatus`). -/
inductive OptimumStatus where
  | kOk : OptimumStatus
  | kWarning : OptimumStatus
  deriving Repr, DecidableEq

/-- The parts of `nsoptim::MakeOptimum`'s result the claims speak about. -/
structure CDOptimum where
  coefs : CDCoefs
  residuals : List ℚ
  status : OptimumStatus
  message : String
  deriving Repr, DecidableEq

/-- The optimizer's configured collaborators and state as far as
`Optimize(max_it)` reads them. -/
structure CDPenseModel where
  lossOpt : Option SLossModel
  penaltyOpt : Option PenaltyModel
  state : CDState
  convergence_tolerance : ℚ
  max_it : ℕ
  reset_iter : ℕ

/-- The periodic drift reset of lines 331-333: at the end of the cycle
with (1-based) iteration number `i`, recompute the residuals from the
coefficients when `i > 0 ∧ i % reset_iter = 0`. -/
def cdResetAt (loss : SLossModel) (resetIter i : ℕ) (s : CDState) : CDState :=
  if 0 < i ∧ i % resetIter = 0 then
    { s with residuals := loss.Residuals s.coefs }
  else s

/-- The while-loop of `Optimize` (lines 213-340), fuelled by the number of
remaining iterations; `i` is the 1-based number of the next iteration.
When the fuel is exhausted (the source's `iter++ < max_it` test fails) the
residuals are recomputed from the current coefficients and the optimum is
returned with a warning status and the non-convergence message
(lines 336-340); when the squared objective change falls below the squared
tolerance the current state is returned as a successful optimum
(lines 320-328). -/
def cdLoop (loss : SLossModel) (cycleFn : CDState → CDState) (tol : ℚ)
    (resetIter : ℕ) : ℕ → ℕ → CDState → CDOptimum
  | 0, _, s =>
    { coefs := s.coefs
      residuals := loss.Residuals s.coefs
      status := .kWarning
      message := "Coordinate descent did not converge." }
  | fuel + 1, i, s =>
    let s' := cycleFn s
    let objf_change := (s'.objf_loss + s'.objf_pen) - (s.objf_loss + s.objf_pen)
    if objf_change * objf_change < tol * tol then
      { coefs := s'.coefs
        residuals := s'.residuals
        status := .kOk
        message := "" }
    else
      cdLoop loss cycleFn tol resetIter fuel (i + 1) (cdResetAt loss resetIter i s')

/-- Embedding of `CDPense::Optimize(max_it)` (lines 190-341): throw a
logic error when no loss or no penalty is configured (lines 191-196),
otherwise run the iteration loop.  (The lazy state/Lipschitz-bound
initialization of lines 200-206 only writes fields the oracle cycle body
reads, and cannot throw once the two guards have passed; it is absorbed
into the starting state and the oracle.) -/
def CDPenseOptimize (cd : CDPenseModel) (cycleFn : CDState → CDState) :
    Except String CDOptimum :=
  match cd.lossOpt with
  | none => .error "no loss set"
  | some loss =>
    match cd.penaltyOpt with
    | none => .error "no penalty set"
    | some _ =>
      .ok (cdLoop loss cycleFn cd.convergence_tolerance cd.reset_iter cd.max_it 1 cd.state)

/-- The loop states of `Optimize`: `cdIterFrom loss cycleFn resetIter i s k`
is the state at the top of the loop after `k` non-converged cycles, when
the first of those cycles carries the 1-based iteration number `i`. -/
def cdIterFrom (loss : SLossModel) (cycleFn : CDState → CDState)
    (resetIter : ℕ) (i : ℕ) (s : CDState) : ℕ → CDState
  | 0 => s
  | k + 1 => cdResetAt loss resetIter (i + k)
      (cycleFn (cdIterFrom loss cycleFn resetIter i s k))

/-- The squared-objective-change convergence test of lines 320-323,
evaluated at the state `s` a cycle starts from. -/
def cdConvergedAt (cycleFn : CDState → CDState) (tol : ℚ) (s : CDState) : Prop :=
  let s' := cycleFn s
  let objf_change := (s'.objf_loss + s'.objf_pen) - (s.objf_loss + s.objf_pen)
  objf_change * objf_change < tol * tol

instance (cycleFn : CDState → CDState) (tol : ℚ) (s : CDState) :
    Decidable (cdConvergedAt cycleFn tol s) := by
  unfold cdConvergedAt; infer_instance

/-! ### ENDal::computeCoefs / computeCoefsWeighted (ENDal.cpp 305-388)

These entry points apply `sqrt` to the caller's weights (line 322), so
this part of the embedding lives over `ℝ` with `Real.sqrt`.  The member
state read or written by the two functions is `y`, `Xtr` (the installed
dataset view, with `bufferSizeNvar` recording `numVar` of the installed
data; `Xtr` holds the `numVar − 1` non-intercept rows), `sqrtWeights`,
`useWeights` and the model flag `intercept`.  (`sqrtWeightsOuter`, the
dual vector `a`, `eta` and the Hessian cache are read only inside `dal`
and `minimizePhi`, which the two claims settled here quantify over; `dal`
is an oracle returning the intercept and slope vector it writes.) -/

/-- Mean of a list of reals. -/
noncomputable def lmeanR (xs : List ℝ) : ℝ := xs.sum / (xs.length : ℝ)

/-- Elementwise product of two real vectors. -/
def hadamardR (xs ys : List ℝ) : List ℝ := List.zipWith (· * ·) xs ys

/-- `Xtr.t() * beta` evaluated per observation: entry `j` is
`Σ_r Xtr[r][j] * beta[r]`. -/
def matTvecR (Xtr : List (List ℝ)) (beta : List ℝ) (nobs : ℕ) : List ℝ :=
  (List.range nobs).map (fun j =>
    (List.zipWith (fun (row : List ℝ) b => row.getD j 0 * b) Xtr beta).sum)

/-- Residual vector `y - intercept - xb` (with `intercept = 0` in the
no-intercept branches). -/
def residFrom (y : List ℝ) (interceptVal : ℝ) (xb : List ℝ) : List ℝ :=
  List.zipWith (fun yv xv => yv - interceptVal - xv) y xb

/-- The `ENDal` member state visible to
`computeCoefs`/`computeCoefsWeighted`. -/
structure ENDalState where
  y : List ℝ
  Xtr : List (List ℝ)
  bufferSizeNvar : ℕ
  sqrtWeights : List ℝ
  useWeights : Bool
  intercept : Bool

/-- The `dal` routine as seen from its two callers: it reads the member
state and the warm-start intercept and slope, and returns the intercept
and slope it wrote (it rewrites `this->a` and `this->eta`, which the
callers never read afterwards, and leaves `y`, `Xtr`, `sqrtWeights` and
`useWeights` alone). -/
def DalFn : Type := ENDalState → ℝ → List ℝ → ℝ × List ℝ

/-- Embedding of `ENDal::computeCoefs(coefs, resids)` (lines 352-388).
Returns the member state, the coefficient buffer (`intercept ::` slopes)
and the residual buffer after the call.  `bufferSizeNobs` is `y.length`
(they are tied by `setData`). -/
noncomputable def computeCoefs (dal : DalFn) (st : ENDalState)
    (coefs resids : List ℝ) : ENDalState × List ℝ × List ℝ :=
  let nobs := st.y.length
  if st.bufferSizeNvar = 0 then
    (st, coefs, if 0 < nobs then st.y else resids)
  else if st.bufferSizeNvar = 1 ∨ nobs = 0 then
    let interceptVal := if 0 < nobs then lmeanR st.y else 0
    (st, interceptVal :: List.replicate (st.bufferSizeNvar - 1) 0,
      st.y.map (fun yv => yv - interceptVal))
  else
    let st1 := { st with useWeights := false }
    let res := dal st1 (coefs.headD 0) coefs.tail
    let xb := matTvecR st1.Xtr res.2 nobs
    let resids' := if st1.intercept then residFrom st1.y res.1 xb
                   else residFrom st1.y 0 xb
    (st1, res.1 :: res.2, resids')

/-- Embedding of `ENDal::computeCoefsWeighted(coefs, resids, weights)`
(lines 305-350).  The zero-predictor check (lines 314-320) runs before any
weight transformation; afterwards `sqrtWeights` is set to the elementwise
square root of the weights and `useWeights` raised (lines 322-324); the
degenerate fast path (lines 326-331) returns in that state; the main path
substitutes the sqrt-weight-scaled response and design for the duration of
the `dal` call, computes the residuals against the original (unweighted)
data, and restores the original pointers and lowers `useWeights`
(lines 333-349). -/
noncomputable def computeCoefsWeighted (dal : DalFn) (st : ENDalState)
    (coefs resids weights : List ℝ) : ENDalState × List ℝ × List ℝ :=
  let nobs := st.y.length
  if st.bufferSizeNvar = 0 then
    (st, coefs, if 0 < nobs then st.y else resids)
  else
    let sw := weights.map Real.sqrt
    let st1 := { st with sqrtWeights := sw, useWeights := true }
    if st.bufferSizeNvar = 1 ∨ nobs = 0 then
      let interceptVal := if 0 < nobs then lmeanR (hadamardR sw st.y) else 0
      (st1, interceptVal :: List.replicate (st.bufferSizeNvar - 1) 0,
        st.y.map (fun yv => yv - interceptVal))
    else
      let weightedY := hadamardR st.y sw
      let weightedXtr := st.Xtr.map (fun row => hadamardR row sw)
      let st2 := { st1 with y := weightedY, Xtr := weightedXtr }
      let res := dal st2 (coefs.headD 0) coefs.tail
      let xb := matTvecR st.Xtr res.2 nobs
      let resids' := if st.intercept then residFrom st.y res.1 xb
                     else residFrom st.y 0 xb
      ({ st2 with y := st.y, Xtr := st.Xtr, useWeights := false },
        res.1 :: res.2, resids')

/-- Modelled from the spec: the "weighted mean of the response" that the
spec's zero-predictor fast path promises for the weighted solver,
`Σ wᵢ yᵢ / Σ wᵢ`.  Defined for comparison against the source's fast path. -/
noncomputable def weightedMeanSpec (w y : List ℝ) : ℝ :=
  (List.zipWith (· * ·) w y).sum / w.sum

/-! ## Theorems -/

/-- C8: for every real `z` and threshold `gamma ≥ 0`, `softThreshold z gamma`
equals `sign(z) * max 0 (|z| - gamma)`, and `vecSoftThreshold` applies exactly
this operator to every element of its argument vector. -/
theorem softThreshold_spec (z gamma : ℚ) (hgamma : 0 ≤ gamma) :
    softThreshold z gamma = sgnQ z * max 0 (|z| - gamma) ∧
    ∀ zs : List ℚ, vecSoftThreshold zs gamma =
      zs.map (fun e => sgnQ e * max 0 (|e| - gamma)) := by
  have key : ∀ w : ℚ, softThreshold w gamma = sgnQ w * max 0 (|w| - gamma) := by
    intro w
    unfold softThreshold sgnQ
    by_cases h1 : |w| ≤ gamma
    · rw [if_pos h1, max_eq_left (by linarith)]
      by_cases hw : w < 0
      · rw [if_pos hw]; ring
      · rw [if_neg hw]
        by_cases hw0 : w = 0
        · rw [if_pos hw0]; ring
        · rw [if_neg hw0]; ring
    · push_neg at h1
      rw [if_neg (not_le.mpr h1)]
      by_cases hw : w < 0
      · rw [abs_of_neg hw] at h1
        rw [if_pos hw, if_pos hw, abs_of_neg hw,
          max_eq_right (by linarith)]
        ring
      · have hw0 : ¬ w = 0 := by
          intro h; rw [h] at h1; simp at h1; linarith
        have hwpos : 0 < w := lt_of_le_of_ne (not_lt.mp hw) (Ne.symm hw0)
        rw [abs_of_pos hwpos] at h1
        rw [if_neg hw, if_neg hw, if_neg hw0, abs_of_pos hwpos,
          max_eq_right (by linarith)]
        ring
  refine ⟨key z, fun zs => ?_⟩
  unfold vecSoftThreshold
  exact List.map_congr_left (fun e _ => key e)

/-- Instantiation of `softThreshold_spec` at `z = 3`, `gamma = 1`,
checking its hypothesis at a concrete input. -/
theorem softThreshold_spec_witness :
    (0:ℚ) ≤ 1 ∧ softThreshold 3 1 = sgnQ 3 * max 0 (|3| - 1) ∧
      vecSoftThreshold [3, -2] 1 = [3, -2].map (fun e => sgnQ e * max 0 (|e| - 1)) :=
  ⟨by norm_num, (softThreshold_spec 3 1 (by norm_num)).1,
    (softThreshold_spec 3 1 (by norm_num)).2 [3, -2]⟩

/-- C7: for non-negative inputs, `setLambdas lambda1 lambda2` sets
`lambda = lambda1 + lambda2` and `alpha = lambda1 / (lambda1 + lambda2)`,
with `alpha = 0` when both inputs are zero. -/
theorem setLambdas_spec (lambda1 lambda2 : ℚ)
    (h1 : 0 ≤ lambda1) (h2 : 0 ≤ lambda2) :
    (setLambdas lambda1 lambda2).1 = lambda1 + lambda2 ∧
    (setLambdas lambda1 lambda2).2 = lambda1 / (lambda1 + lambda2) ∧
    (lambda1 = 0 → lambda2 = 0 → (setLambdas lambda1 lambda2).2 = 0) := by
  unfold setLambdas
  by_cases h : lambda2 = 0 ∧ lambda1 = 0
  · obtain ⟨hb, ha⟩ := h
    subst hb; subst ha
    norm_num
  · rw [if_neg h]
    refine ⟨by ring_nf, by rw [add_comm lambda2 lambda1], ?_⟩
    intro ha hb
    exact absurd ⟨hb, ha⟩ h

/-- Instantiation of `setLambdas_spec` at `(lambda1, lambda2) = (1, 2)`,
checking its hypotheses at a concrete input. -/
theorem setLambdas_spec_witness :
    (0:ℚ) ≤ 1 ∧ (0:ℚ) ≤ 2 ∧ (setLambdas 1 2).1 = 1 + 2 :=
  ⟨by norm_num, by norm_num, (setLambdas_spec 1 2 (by norm_num) (by norm_num)).1⟩

/-- C2: in the DAL outer loop the accepted dual objective values are
non-increasing from the second outer iteration onward: for every `k ≥ 1`,
the value accepted at pass `k` (the state after `k + 1` passes) is at most
the value accepted at pass `k - 1`, for every parameter set, every inner
`minimizePhi` oracle and every starting state — the monotonicity guard of
lines 482-484 keeps the previous value whenever the newly computed dual
objective exceeds it. -/
theorem dal_dualObjective_monotone (P : DalParams)
    (phi : List ℚ × List ℚ × ℚ → List ℚ × List ℚ × ℚ) (s0 : DalState)
    (k : ℕ) (hk : 1 ≤ k) :
    (dalIterates P phi s0 (k + 1)).dualFunVal ≤
      (dalIterates P phi s0 k).dualFunVal := by
  obtain ⟨m, rfl⟩ : ∃ m, k = m + 1 := ⟨k - 1, (Nat.succ_pred_eq_of_pos hk).symm⟩
  show (dalStep P phi (m + 1) (dalIterates P phi s0 (m + 1))).dualFunVal ≤ _
  set s := dalIterates P phi s0 (m + 1)
  unfold dalStep
  by_cases h : 0 < m + 1 ∧ s.dualFunVal < computedDualVal P s.a
  · simp only [if_pos h]
    exact le_rfl
  · simp only [if_neg h]
    rcases not_and_or.mp h with h' | h'
    · exact absurd (Nat.succ_pos m) h'
    · exact le_of_not_lt h'

/-- Instantiation of `dal_dualObjective_monotone` at a concrete problem
and `k = 1`, checking its hypothesis at a concrete input. -/
theorem dal_dualObjective_monotone_witness :
    1 ≤ 1 ∧
    (dalIterates ⟨[1], [[1]], 0, 1, [1], false, false, 2, 1/1000⟩ (fun t => t)
        ⟨[1], [0], 0, 1, 1, 0, 0⟩ 2).dualFunVal ≤
      (dalIterates ⟨[1], [[1]], 0, 1, [1], false, false, 2, 1/1000⟩ (fun t => t)
        ⟨[1], [0], 0, 1, 1, 0, 0⟩ 1).dualFunVal :=
  ⟨le_refl 1,
    dal_dualObjective_monotone ⟨[1], [[1]], 0, 1, [1], false, false, 2, 1/1000⟩
      (fun t => t) ⟨[1], [0], 0, 1, 1, 0, 0⟩ 1 (le_refl 1)⟩

/-- C6: in every non-converged outer DAL iteration (pass index `k`, source
iteration counter `iter = k + 1` after `++iter`), after the inner
proximal-Newton step the slope multiplier `eta[0]` is multiplied by
`etaMultiplier`; when an intercept is modeled, the intercept multiplier
`eta[1]` is multiplied by `10 * etaMultiplier` exactly when, after the
first inner step (`k ≥ 1`), the dual mass of the updated dual vector
exceeds the tolerance `eps` and is not below half its previous value, and
by the plain `etaMultiplier` otherwise (and is untouched when no intercept
is modeled). -/
theorem dal_eta_update (P : DalParams)
    (phi : List ℚ × List ℚ × ℚ → List ℚ × List ℚ × ℚ) (k : ℕ) (s : DalState) :
    (dalStep P phi k s).eta0 = s.eta0 * P.etaMult ∧
    (dalStep P phi k s).eta1 =
      (if P.hasIntercept then
        (if 1 ≤ k ∧ P.eps < dualMass P (phi (s.a, s.beta, s.interceptVal)).1 ∧
            (1/2) * s.aL1Prev < dualMass P (phi (s.a, s.beta, s.interceptVal)).1
         then s.eta1 * (10 * P.etaMult)
         else s.eta1 * P.etaMult)
       else s.eta1) := by
  unfold dalStep
  refine ⟨rfl, ?_⟩
  by_cases hI : P.hasIntercept
  · simp only [hI, if_true, Nat.lt_succ_iff]
  · simp only [hI, if_false, Bool.false_eq_true]

/-- Instantiation of `dal_eta_update` at a concrete problem (with an
intercept and the growth condition firing), evaluating both sides. -/
theorem dal_eta_update_witness :
    (dalStep ⟨[1], [[1]], 0, 1, [1], false, true, 2, 1/1000⟩ (fun t => t) 1
        ⟨[1], [0], 0, 1, 1, 0, 0⟩).eta0 = 1 * 2 ∧
    (dalStep ⟨[1], [[1]], 0, 1, [1], false, true, 2, 1/1000⟩ (fun t => t) 1
        ⟨[1], [0], 0, 1, 1, 0, 0⟩).eta1 = 1 * (10 * 2) := by
  have h := dal_eta_update ⟨[1], [[1]], 0, 1, [1], false, true, 2, 1/1000⟩
    (fun t => t) 1 ⟨[1], [0], 0, 1, 1, 0, 0⟩
  refine ⟨h.1, ?_⟩
  rw [h.2]
  norm_num [dualMass, sumQ, hadamardQ]

/-- C5: in `IRWEN::compute`, whenever the squared norm of the previous
iteration's coefficients is below the numerical tolerance, the
relative-change value is set to exactly `0` when the squared absolute
coefficient change is also below the tolerance and to `2 * eps` (twice the
squared convergence tolerance) otherwise; consequently, if the inner
weighted solver maps the zero coefficient vector to the zero coefficient
vector, an iteration starting from the zero vector computes
`relChangeVal = 0` and the loop exits as converged after exactly that one
additional iteration. -/
theorem irwen_degenerate_convergence (numTol epsSq : ℚ)
    (h0 : 0 < numTol) (h1 : 0 ≤ epsSq) :
    (∀ oldCoef newCoef : List ℚ,
      (oldCoef.map (fun o => o * o)).sum < numTol →
      irwenRelChange numTol epsSq oldCoef newCoef =
        (if (List.zipWith (fun o n => (o - n) * (o - n)) oldCoef newCoef).sum < numTol
         then 0 else 2 * epsSq)) ∧
    (∀ (solver : List ℚ × List ℚ → List ℚ × List ℚ)
        (maxIt fuel iteration n : ℕ) (resids : List ℚ),
      (solver (List.replicate n 0, resids)).1 = List.replicate n 0 →
      irwenGo solver numTol epsSq maxIt (fuel + 1) iteration
          (List.replicate n 0) resids =
        (iteration + 1, List.replicate n 0,
          (solver (List.replicate n 0, resids)).2, 0)) := by
  constructor
  · intro oldCoef newCoef hnorm
    unfold irwenRelChange
    rw [if_pos hnorm]
  · intro solver maxIt fuel iteration n resids hsolver
    have hzero : irwenRelChange numTol epsSq (List.replicate n 0)
        (List.replicate n 0) = 0 := by
      unfold irwenRelChange
      have hz : ∀ m : ℕ, ((List.replicate m (0:ℚ)).map (fun o => o * o)).sum = 0 := by
        intro m
        simp [List.map_replicate, List.sum_replicate]
      have hz2 : (List.zipWith (fun o n => (o - n) * (o - n))
          (List.replicate n (0:ℚ)) (List.replicate n (0:ℚ))).sum = 0 := by
        rw [List.zipWith_replicate]
        simp [List.sum_replicate]
      rw [hz, hz2, if_pos h0, if_pos h0]
    unfold irwenGo
    simp only [hsolver, hzero]
    rw [if_neg (by
      intro hc
      exact absurd hc.2 (not_lt.mpr h1))]

/-- Instantiation of `irwen_degenerate_convergence` with tolerance `1`,
squared convergence tolerance `0`, the identity solver and the zero
starting vector of length 2, checking all hypotheses concretely. -/
theorem irwen_degenerate_convergence_witness :
    (0:ℚ) < 1 ∧ (0:ℚ) ≤ 0 ∧
    irwenGo (fun p => p) 1 0 10 1 0 (List.replicate 2 0) [5] =
      (1, List.replicate 2 0, [5], 0) :=
  ⟨by norm_num, le_refl 0,
    (irwen_degenerate_convergence 1 0 (by norm_num) (le_refl 0)).2
      (fun p => p) 10 0 0 2 [5] rfl⟩

/-- The staleness test of `getHessBuff` is exactly inequality of the key
vectors: it passes (returns `false`) precisely when `keep` and the stored
key agree elementwise (in particular agreeing in size). -/
theorem hessKeyDiffers_eq_false_iff (keep key : List ℕ) :
    hessKeyDiffers keep key = false ↔ keep = key := by
  induction keep generalizing key with
  | nil =>
    cases key with
    | nil => simp [hessKeyDiffers]
    | cons b u => simp [hessKeyDiffers]
  | cons a t ih =>
    cases key with
    | nil => simp [hessKeyDiffers]
    | cons b u =>
      have hstep : hessKeyDiffers (a :: t) (b :: u) = false ↔
          (a = b ∧ hessKeyDiffers t u = false) := by
        simp only [hessKeyDiffers, decide_eq_false_iff_not, not_or,
          List.length_cons, List.zipWith_cons_cons, List.any_cons,
          Bool.or_eq_true, not_or, decide_eq_true_eq, not_not,
          sub_eq_zero, Nat.cast_inj, Nat.add_right_cancel_iff, ne_eq]
        tauto
      rw [hstep, ih]
      constructor
      · rintro ⟨rfl, rfl⟩; rfl
      · intro h
        injection h with h1 h2
        exact ⟨h1, h2⟩

/-- When the cached buffer matches the currently installed matrix at the
stored key, `getHessBuff` returns the current matrix's restricted product
for every requested key. -/
theorem getHessBuff_returns_current (Xtr : List (List ℚ)) (nobs : ℕ)
    (keep : List ℕ) (c : HessCache)
    (hinv : c.hessBuff = hessTarget Xtr nobs c.hessBuffKeep) :
    (getHessBuff Xtr nobs keep c).1 = hessTarget Xtr nobs keep := by
  by_cases hk : keep = c.hessBuffKeep
  · subst hk
    have hdiff : hessKeyDiffers c.hessBuffKeep c.hessBuffKeep = false :=
      (hessKeyDiffers_eq_false_iff c.hessBuffKeep c.hessBuffKeep).mpr rfl
    simp [getHessBuff, hdiff, hinv]
  · have hdiff : hessKeyDiffers keep c.hessBuffKeep = true := by
      cases hb : hessKeyDiffers keep c.hessBuffKeep with
      | false => exact absurd ((hessKeyDiffers_eq_false_iff keep c.hessBuffKeep).mp hb) hk
      | true => rfl
    simp [getHessBuff, hdiff]

/-- C3 (amended): `getHessBuff keep` recomputes the restricted product
from the currently installed matrix if and only if `keep` differs
elementwise from the stored key (returning the cached buffer untouched
otherwise), and after the call the stored key equals `keep`; whenever the
cached buffer was computed from the currently installed matrix — in
particular throughout any solve with fixed installed data — the returned
matrix is exactly `Xtr.rows(keep).t() * Xtr.rows(keep)` for that data and
`evalPhiHess` produces the same Hessian with the cache enabled as with it
disabled. -/
theorem getHessBuff_spec (Xtr : List (List ℚ)) (nobs : ℕ) (keep : List ℕ)
    (c : HessCache) :
    getHessBuff Xtr nobs keep c =
      (if keep = c.hessBuffKeep then (c.hessBuff, c)
       else (hessTarget Xtr nobs keep,
             { hessBuffKeep := keep, hessBuff := hessTarget Xtr nobs keep })) ∧
    (getHessBuff Xtr nobs keep c).2.hessBuffKeep = keep ∧
    (c.hessBuff = hessTarget Xtr nobs c.hessBuffKeep →
      (getHessBuff Xtr nobs keep c).1 = hessTarget Xtr nobs keep ∧
      ∀ (beta : List ℚ) (eta0 eta1 multFact : ℚ)
        (hasIntercept useW : Bool) (swOuter : List (List ℚ)),
        (evalPhiHess true Xtr nobs beta eta0 eta1 multFact
            hasIntercept useW swOuter c).1 =
        (evalPhiHess false Xtr nobs beta eta0 eta1 multFact
            hasIntercept useW swOuter c).1) := by
  refine ⟨?_, ?_, ?_⟩
  · by_cases hk : keep = c.hessBuffKeep
    · subst hk
      have hdiff : hessKeyDiffers c.hessBuffKeep c.hessBuffKeep = false :=
        (hessKeyDiffers_eq_false_iff c.hessBuffKeep c.hessBuffKeep).mpr rfl
      simp [getHessBuff, hdiff]
    · have hdiff : hessKeyDiffers keep c.hessBuffKeep = true := by
        cases hb : hessKeyDiffers keep c.hessBuffKeep with
        | false => exact absurd ((hessKeyDiffers_eq_false_iff keep c.hessBuffKeep).mp hb) hk
        | true => rfl
      simp [getHessBuff, hdiff, hk]
  · by_cases hk : keep = c.hessBuffKeep
    · subst hk
      have hdiff : hessKeyDiffers c.hessBuffKeep c.hessBuffKeep = false :=
        (hessKeyDiffers_eq_false_iff c.hessBuffKeep c.hessBuffKeep).mpr rfl
      simp [getHessBuff, hdiff]
    · have hdiff : hessKeyDiffers keep c.hessBuffKeep = true := by
        cases hb : hessKeyDiffers keep c.hessBuffKeep with
        | false => exact absurd ((hessKeyDiffers_eq_false_iff keep c.hessBuffKeep).mp hb) hk
        | true => rfl
      simp [getHessBuff, hdiff]
  · intro hinv
    refine ⟨getHessBuff_returns_current Xtr nobs keep c hinv, ?_⟩
    intro beta eta0 eta1 multFact hasIntercept useW swOuter
    simp [evalPhiHess,
      getHessBuff_returns_current Xtr nobs (findSupport beta) c hinv]

/-- Counterexample for C3 as stated: a reachable cache state for which
`getHessBuff` does not return the restricted product of the currently
installed matrix.  Starting from the reset cache a `setData` with one
observation leaves behind (empty key, zeroed 1×1 buffer), a first call
with installed matrix `[[1]]` (for example the sqrt-weight-scaled design
of a weighted solve) fills the cache for the key `[0]`; a second call with
installed matrix `[[2]]` and the same key — reachable because
`computeCoefsWeighted` swaps the installed matrix without touching the
cache — returns the stale buffer `[[1]]` instead of
`Xtr.rows(keep).t() * Xtr.rows(keep) = [[4]]`. -/
theorem getHessBuff_stale_counterexample :
    (getHessBuff [[2]] 1 [0]
        (getHessBuff [[1]] 1 [0] ⟨[], [[0]]⟩).2).1 ≠
      hessTarget [[2]] 1 [0] := by
  have h1 : (getHessBuff [[1]] 1 [0] (⟨[], [[0]]⟩ : HessCache)).2 =
      (⟨[0], [[1]]⟩ : HessCache) := by
    norm_num [getHessBuff, hessKeyDiffers, hessTarget, gramT, selRows,
      List.range_succ]
  rw [h1]
  have h2 : hessKeyDiffers [0] [0] = false :=
    (hessKeyDiffers_eq_false_iff [0] [0]).mpr rfl
  norm_num [getHessBuff, h2, hessTarget, gramT, selRows, List.range_succ]

/-- Instantiation of `getHessBuff_spec` at a concrete cache satisfying the
currently-installed-data invariant, checking that hypothesis concretely. -/
theorem getHessBuff_spec_witness :
    HessCache.hessBuff ⟨[0], [[1]]⟩ =
      hessTarget [[1]] 1 (HessCache.hessBuffKeep ⟨[0], [[1]]⟩) ∧
    (getHessBuff [[1]] 1 [0] ⟨[0], [[1]]⟩).1 = hessTarget [[1]] 1 [0] := by
  have hinv : HessCache.hessBuff ⟨[0], [[1]]⟩ =
      hessTarget [[1]] 1 (HessCache.hessBuffKeep ⟨[0], [[1]]⟩) := by
    norm_num [hessTarget, gramT, selRows, List.range_succ]
  exact ⟨hinv, ((getHessBuff_spec [[1]] 1 [0] ⟨[0], [[1]]⟩).2.2 hinv).1⟩

/-- Advancing the start index of the `Optimize` loop-state sequence by one
iteration. -/
theorem cdIterFrom_shift (loss : SLossModel) (cycleFn : CDState → CDState)
    (resetIter : ℕ) (i : ℕ) (s : CDState) :
    ∀ k, cdIterFrom loss cycleFn resetIter i s (k + 1) =
      cdIterFrom loss cycleFn resetIter (i + 1)
        (cdResetAt loss resetIter i (cycleFn s)) k := by
  intro k
  induction k with
  | zero => rfl
  | succ n ih =>
    show cdResetAt loss resetIter (i + (n + 1))
        (cycleFn (cdIterFrom loss cycleFn resetIter i s (n + 1))) = _
    rw [ih]
    show _ = cdResetAt loss resetIter ((i + 1) + n)
        (cycleFn (cdIterFrom loss cycleFn resetIter (i + 1)
          (cdResetAt loss resetIter i (cycleFn s)) n))
    congr 1
    omega

/-- If none of the `fuel` remaining cycles meets the squared-change
criterion, the `Optimize` loop runs them all, recomputes the residuals
from the final coefficients, and returns a warning optimum with the
non-convergence message. -/
theorem cdLoop_capout (loss : SLossModel) (cycleFn : CDState → CDState)
    (tol : ℚ) (resetIter : ℕ) :
    ∀ (fuel i : ℕ) (s : CDState),
      (∀ k, k < fuel →
        ¬ cdConvergedAt cycleFn tol (cdIterFrom loss cycleFn resetIter i s k)) →
      cdLoop loss cycleFn tol resetIter fuel i s =
        { coefs := (cdIterFrom loss cycleFn resetIter i s fuel).coefs
          residuals :=
            loss.Residuals (cdIterFrom loss cycleFn resetIter i s fuel).coefs
          status := .kWarning
          message := "Coordinate descent did not converge." } := by
  intro fuel
  induction fuel with
  | zero => intro i s h; rfl
  | succ n ih =>
    intro i s h
    have h0 : ¬ cdConvergedAt cycleFn tol s := by
      have hx := h 0 (Nat.succ_pos n)
      simpa [cdIterFrom] using hx
    have h0' : ¬ (((cycleFn s).objf_loss + (cycleFn s).objf_pen -
          (s.objf_loss + s.objf_pen)) *
        ((cycleFn s).objf_loss + (cycleFn s).objf_pen -
          (s.objf_loss + s.objf_pen)) < tol * tol) := by
      simpa [cdConvergedAt] using h0
    have hshift := cdIterFrom_shift loss cycleFn resetIter i s
    simp only [cdLoop]
    rw [if_neg h0']
    rw [ih (i + 1) (cdResetAt loss resetIter i (cycleFn s)) (fun k hk => by
      rw [← hshift k]
      exact h (k + 1) (Nat.succ_lt_succ hk))]
    rw [← hshift n]

/-- C4: `CDPense::Optimize` throws a logic error if and only if it is
called before a loss or a penalty function has been configured; with both
configured it never throws, and if the squared objective-change criterion
fails in each of the `max_it` cycles it recomputes the residuals from the
current coefficients and returns an optimum carrying the best-found
coefficients, a non-fatal warning status, and the message
"Coordinate descent did not converge.". -/
theorem CDPenseOptimize_spec (cd : CDPenseModel) (cycleFn : CDState → CDState) :
    ((∃ e, CDPenseOptimize cd cycleFn = .error e) ↔
      (cd.lossOpt = none ∨ cd.penaltyOpt = none)) ∧
    (∀ loss, cd.lossOpt = some loss →
      ∀ p, cd.penaltyOpt = some p →
      (∀ k, k < cd.max_it →
        ¬ cdConvergedAt cycleFn cd.convergence_tolerance
          (cdIterFrom loss cycleFn cd.reset_iter 1 cd.state k)) →
      CDPenseOptimize cd cycleFn = .ok
        { coefs := (cdIterFrom loss cycleFn cd.reset_iter 1 cd.state cd.max_it).coefs
          residuals := loss.Residuals
            (cdIterFrom loss cycleFn cd.reset_iter 1 cd.state cd.max_it).coefs
          status := .kWarning
          message := "Coordinate descent did not converge." }) := by
  constructor
  · constructor
    · rintro ⟨e, he⟩
      unfold CDPenseOptimize at he
      cases hl : cd.lossOpt with
      | none => exact Or.inl rfl
      | some loss =>
        cases hp : cd.penaltyOpt with
        | none => exact Or.inr rfl
        | some p =>
          rw [hl, hp] at he
          exact absurd he (by simp)
    · intro h
      unfold CDPenseOptimize
      rcases h with h | h
      · rw [h]
        exact ⟨"no loss set", rfl⟩
      · cases hl : cd.lossOpt with
        | none => exact ⟨"no loss set", rfl⟩
        | some loss =>
          rw [h]
          exact ⟨"no penalty set", rfl⟩
  · intro loss hl p hp hcap
    unfold CDPenseOptimize
    rw [hl, hp]
    dsimp only
    rw [cdLoop_capout loss cycleFn cd.convergence_tolerance cd.reset_iter
      cd.max_it 1 cd.state hcap]

/-- Instantiation of `CDPenseOptimize_spec`: a concrete optimizer whose
cycle oracle increases the objective by `1` every cycle (so the squared
change never beats the tolerance `1`) caps out after `max_it = 2` cycles
with the warning optimum.  All hypotheses are checked concretely. -/
theorem CDPenseOptimize_spec_witness :
    (∀ k, k < 2 → ¬ cdConvergedAt
      (fun s => { s with objf_loss := s.objf_loss + 1 }) 1
      (cdIterFrom ⟨fun c => [c.interceptC]⟩
        (fun s => { s with objf_loss := s.objf_loss + 1 }) 8 1
        ⟨⟨0, []⟩, [], 0, 0, 0⟩ k)) ∧
    CDPenseOptimize
      ⟨some ⟨fun c => [c.interceptC]⟩, some ⟨1, 1⟩,
        ⟨⟨0, []⟩, [], 0, 0, 0⟩, 1, 2, 8⟩
      (fun s => { s with objf_loss := s.objf_loss + 1 }) = .ok
      { coefs := (cdIterFrom ⟨fun c => [c.interceptC]⟩
          (fun s => { s with objf_loss := s.objf_loss + 1 }) 8 1
          ⟨⟨0, []⟩, [], 0, 0, 0⟩ 2).coefs
        residuals := SLossModel.Residuals ⟨fun c => [c.interceptC]⟩
          (cdIterFrom ⟨fun c => [c.interceptC]⟩
            (fun s => { s with objf_loss := s.objf_loss + 1 }) 8 1
            ⟨⟨0, []⟩, [], 0, 0, 0⟩ 2).coefs
        status := .kWarning
        message := "Coordinate descent did not converge." } := by
  have hcap : ∀ k, k < 2 → ¬ cdConvergedAt
      (fun s => { s with objf_loss := s.objf_loss + 1 }) 1
      (cdIterFrom ⟨fun c => [c.interceptC]⟩
        (fun s => { s with objf_loss := s.objf_loss + 1 }) 8 1
        ⟨⟨0, []⟩, [], 0, 0, 0⟩ k) := by
    intro k hk
    interval_cases k <;>
      norm_num [cdConvergedAt, cdIterFrom, cdResetAt]
  exact ⟨hcap,
    (CDPenseOptimize_spec
      ⟨some ⟨fun c => [c.interceptC]⟩, some ⟨1, 1⟩,
        ⟨⟨0, []⟩, [], 0, 0, 0⟩, 1, 2, 8⟩
      (fun s => { s with objf_loss := s.objf_loss + 1 })).2
      ⟨fun c => [c.interceptC]⟩ rfl ⟨1, 1⟩ rfl hcap⟩

/-- C10: with `n_var = 0` installed, `computeCoefs` and
`computeCoefsWeighted` leave the member state (in particular
`sqrtWeights` and `useWeights`: no weight transformation happens) and the
caller's coefficient buffer completely unchanged, set the residuals to the
response when `n_obs > 0`, and change nothing at all when `n_obs = 0` —
independently of the `dal` oracle, which is never invoked. -/
theorem computeCoefs_zeroVar_frame (dal : DalFn) (st : ENDalState)
    (coefs resids weights : List ℝ) (h : st.bufferSizeNvar = 0) :
    computeCoefs dal st coefs resids =
      (st, coefs, if 0 < st.y.length then st.y else resids) ∧
    computeCoefsWeighted dal st coefs resids weights =
      (st, coefs, if 0 < st.y.length then st.y else resids) := by
  constructor
  · simp only [computeCoefs]
    rw [if_pos h]
  · simp only [computeCoefsWeighted]
    rw [if_pos h]

/-- Instantiation of `computeCoefs_zeroVar_frame` at a concrete state with
`n_var = 0` and one observation, checking its hypothesis concretely. -/
theorem computeCoefs_zeroVar_frame_witness :
    (⟨[1], [], 0, [], false, false⟩ : ENDalState).bufferSizeNvar = 0 ∧
    computeCoefs (fun _ i b => (i, b)) ⟨[1], [], 0, [], false, false⟩ [7] [9] =
      (⟨[1], [], 0, [], false, false⟩, [7], [1]) := by
  refine ⟨rfl, ?_⟩
  have h := (computeCoefs_zeroVar_frame (fun _ i b => (i, b))
    ⟨[1], [], 0, [], false, false⟩ [7] [9] [2] rfl).1
  simpa using h

/-- C9 (amended): `computeCoefsWeighted` always returns with the original
response and design installed, and on its main path (`n_var ≥ 2`,
`n_obs ≥ 1`) it substitutes the sqrt-weight-scaled copies only for the
duration of the `dal` call, computes the returned residuals against the
original (unweighted) response and design, restores the original pointers
and clears the `useWeights` flag; on the degenerate fast paths the flag is
not cleared (but since those paths never hand the substituted data to
`dal`, a subsequent unweighted `computeCoefs` still sees the original
data). -/
theorem computeCoefsWeighted_frame (dal : DalFn) (st : ENDalState)
    (coefs resids weights : List ℝ) :
    (computeCoefsWeighted dal st coefs resids weights).1.y = st.y ∧
    (computeCoefsWeighted dal st coefs resids weights).1.Xtr = st.Xtr ∧
    (2 ≤ st.bufferSizeNvar → 0 < st.y.length →
      computeCoefsWeighted dal st coefs resids weights =
        (let sw := weights.map Real.sqrt
         let res := dal { st with y := hadamardR st.y sw,
                                  Xtr := st.Xtr.map (fun row => hadamardR row sw),
                                  sqrtWeights := sw, useWeights := true }
           (coefs.headD 0) coefs.tail
         ({ st with sqrtWeights := sw, useWeights := false },
          res.1 :: res.2,
          if st.intercept then
            residFrom st.y res.1 (matTvecR st.Xtr res.2 st.y.length)
          else residFrom st.y 0 (matTvecR st.Xtr res.2 st.y.length)))) := by
  have hmain : 2 ≤ st.bufferSizeNvar → 0 < st.y.length →
      computeCoefsWeighted dal st coefs resids weights =
        (let sw := weights.map Real.sqrt
         let res := dal { st with y := hadamardR st.y sw,
                                  Xtr := st.Xtr.map (fun row => hadamardR row sw),
                                  sqrtWeights := sw, useWeights := true }
           (coefs.headD 0) coefs.tail
         ({ st with sqrtWeights := sw, useWeights := false },
          res.1 :: res.2,
          if st.intercept then
            residFrom st.y res.1 (matTvecR st.Xtr res.2 st.y.length)
          else residFrom st.y 0 (matTvecR st.Xtr res.2 st.y.length))) := by
    intro h2 h1
    have h0 : ¬ st.bufferSizeNvar = 0 := by omega
    have hfp : ¬ (st.bufferSizeNvar = 1 ∨ st.y.length = 0) := by
      push_neg
      exact ⟨by omega, by omega⟩
    simp only [computeCoefsWeighted]
    rw [if_neg h0, if_neg hfp]
  refine ⟨?_, ?_, hmain⟩
  all_goals
    by_cases h0 : st.bufferSizeNvar = 0
  · simp only [computeCoefsWeighted]
    rw [if_pos h0]
  · by_cases hfp : st.bufferSizeNvar = 1 ∨ st.y.length = 0
    · simp only [computeCoefsWeighted]
      rw [if_neg h0, if_pos hfp]
    · simp only [computeCoefsWeighted]
      rw [if_neg h0, if_neg hfp]
  · simp only [computeCoefsWeighted]
    rw [if_pos h0]
  · by_cases hfp : st.bufferSizeNvar = 1 ∨ st.y.length = 0
    · simp only [computeCoefsWeighted]
      rw [if_neg h0, if_pos hfp]
    · simp only [computeCoefsWeighted]
      rw [if_neg h0, if_neg hfp]

/-- Counterexample for C9 as stated: on the degenerate fast path
(`n_var = 1`) the function returns with `useWeights` still raised — the
flag is not cleared before every return. -/
theorem computeCoefsWeighted_useWeights_counterexample :
    (computeCoefsWeighted (fun _ i b => (i, b))
        ⟨[1], [], 1, [], false, false⟩ [0] [0] [1]).1.useWeights = true := by
  simp [computeCoefsWeighted]

/-- Instantiation of `computeCoefsWeighted_frame` on a concrete main-path
solve (`n_var = 2`, `n_obs = 1`), checking both hypotheses concretely. -/
theorem computeCoefsWeighted_frame_witness :
    2 ≤ (⟨[1], [[1]], 2, [], false, false⟩ : ENDalState).bufferSizeNvar ∧
    0 < (⟨[1], [[1]], 2, [], false, false⟩ : ENDalState).y.length ∧
    (computeCoefsWeighted (fun _ i b => (i, b))
        ⟨[1], [[1]], 2, [], false, false⟩ [0, 0] [0] [1]).1.useWeights = false := by
  refine ⟨by decide, by decide, ?_⟩
  have h := (computeCoefsWeighted_frame (fun _ i b => (i, b))
      ⟨[1], [[1]], 2, [], false, false⟩ [0, 0] [0] [1]).2.2 (by decide) (by decide)
  rw [h]

/-- C1 (amended): when `n_var = 1` or `n_obs = 0` (with `n_var ≥ 1`),
`computeCoefs` and `computeCoefsWeighted` return without entering the
iterative DAL algorithm (the result does not depend on the `dal` oracle):
`computeCoefs` sets the intercept to the mean of the response, while
`computeCoefsWeighted` sets it to the plain average of the
sqrt-weight-scaled response, `mean(sqrt(w) ∘ y)` (both `0` when
`n_obs = 0`); both zero every slope coefficient and set the residuals to
the response minus the intercept. -/
theorem computeCoefs_fastpath (dal : DalFn) (st : ENDalState)
    (coefs resids weights : List ℝ) (h0 : st.bufferSizeNvar ≠ 0)
    (h : st.bufferSizeNvar = 1 ∨ st.y.length = 0) :
    computeCoefs dal st coefs resids =
      (st,
        (if 0 < st.y.length then lmeanR st.y else 0) ::
          List.replicate (st.bufferSizeNvar - 1) 0,
        st.y.map (fun yv => yv -
          (if 0 < st.y.length then lmeanR st.y else 0))) ∧
    computeCoefsWeighted dal st coefs resids weights =
      ({ st with sqrtWeights := weights.map Real.sqrt, useWeights := true },
        (if 0 < st.y.length then
            lmeanR (hadamardR (weights.map Real.sqrt) st.y) else 0) ::
          List.replicate (st.bufferSizeNvar - 1) 0,
        st.y.map (fun yv => yv -
          (if 0 < st.y.length then
            lmeanR (hadamardR (weights.map Real.sqrt) st.y) else 0))) := by
  constructor
  · simp only [computeCoefs]
    rw [if_neg h0, if_pos h]
  · simp only [computeCoefsWeighted]
    rw [if_neg h0, if_pos h]

/-- Counterexample for C1 as stated: with `n_var = 1`, one observation
`y = [1]` and weight `w = [4]`, the weighted fast path sets the intercept
to `mean(sqrt(w) ∘ y) = 2`, whereas the weighted mean of the response is
`Σ wᵢ yᵢ / Σ wᵢ = 1`. -/
theorem computeCoefsWeighted_intercept_counterexample :
    (computeCoefsWeighted (fun _ i b => (i, b))
        ⟨[1], [], 1, [], false, false⟩ [0] [0] [4]).2.1.headD 0 = 2 ∧
    weightedMeanSpec [4] [1] = 1 ∧ (2:ℝ) ≠ 1 := by
  have h4 : Real.sqrt 4 = 2 := by
    rw [show (4:ℝ) = 2 ^ 2 by norm_num]
    exact Real.sqrt_sq (by norm_num)
  refine ⟨?_, ?_, by norm_num⟩
  · simp [computeCoefsWeighted, lmeanR, hadamardR, h4]
  · simp only [weightedMeanSpec, List.zipWith_cons_cons, List.zipWith_nil_right,
      List.sum_cons, List.sum_nil]
    norm_num

/-- Instantiation of `computeCoefs_fastpath` at a concrete intercept-only
problem (`n_var = 1`, `y = [4]`), checking both hypotheses concretely. -/
theorem computeCoefs_fastpath_witness :
    (⟨[4], [], 1, [], false, false⟩ : ENDalState).bufferSizeNvar ≠ 0 ∧
    ((⟨[4], [], 1, [], false, false⟩ : ENDalState).bufferSizeNvar = 1 ∨
      (⟨[4], [], 1, [], false, false⟩ : ENDalState).y.length = 0) ∧
    computeCoefs (fun _ i b => (i, b)) ⟨[4], [], 1, [], false, false⟩ [0] [0] =
      (⟨[4], [], 1, [], false, false⟩,
        (if 0 < ([(4:ℝ)]).length then lmeanR [(4:ℝ)] else 0) :: List.replicate 0 0,
        [(4:ℝ)].map (fun yv => yv -
          (if 0 < ([(4:ℝ)]).length then lmeanR [(4:ℝ)] else 0))) :=
  ⟨by decide, Or.inl rfl,
    (computeCoefs_fastpath (fun _ i b => (i, b)) ⟨[4], [], 1, [], false, false⟩
      [0] [0] [1] (by decide) (Or.inl rfl)).1⟩
